import Mathlib

/-!
The forbidden-word detection engine of the attachment-checker plugin:
a shallow embedding of `src/attachment-checker.c`.

Conventions of the embedding.

* A `gchar *` string is the list of its characters (`Str`); a pointer that may be
  `NULL` is an `Option`.  A `GByteArray` or `GString` holding text is the list of
  its characters as well, its `len` field being the length of the list; the text
  in it is taken to be free of NUL bytes, so that it is the same text when read
  as a string.
* A `NULL`-terminated `gchar **` vector is a `List Str`; the pointer to it may be
  `NULL`, hence `Option (List Str)`.
* An out-parameter `gchar **found_word` is an `OutPtr`: `none` is the `NULL`
  pointer, `some c` a pointer to a cell whose current content is `c`.  A function
  writing through it returns the cell after the call.
* Library functions of GLib whose tables are not part of this repository
  (`g_utf8_strdown`) are parameters of the functions that call them.
* Calls into the host are values of the objects they are made on: the result of
  an accessor is a field of the object, and the calls `get_message_text` makes on
  the composer are recorded in call order (`Access`).
-/

namespace AttachmentChecker

/-- The characters of a `gchar *` string. -/
abbrev Str := List Char

/-- An out-parameter of type `gchar **`. -/
abbrev OutPtr := Option (Option Str)

/-- The assignment `if (p) *p = v;` through an out-parameter. -/
def OutPtr.write (p : OutPtr) (v : Option Str) : OutPtr :=
  match p with
  | none => none
  | some _ => some v

/-- The libc function `strstr`: the suffix of `haystack` that starts at the first
occurrence of `needle`, or `none` (`NULL`) when `needle` does not occur. -/
def strstr : Str → Str → Option Str
  | [], needle => if needle.isEmpty then some [] else none
  | c :: haystack, needle =>
      if needle.isPrefixOf (c :: haystack) then some (c :: haystack)
      else strstr haystack needle

/-- The GLib function `g_str_has_prefix`. -/
def g_str_has_prefix (str pfx : Str) : Bool := pfx.isPrefixOf str

/-- Lines 68-73 of `check_text_for_forbidden_words`: the text that is searched. -/
def text_to_search (g_utf8_strdown : Str → Str) (case_sensitive : Bool) (text : Str) : Str :=
  if !case_sensitive then g_utf8_strdown text else text

/-- Lines 75-83 of `check_text_for_forbidden_words`: the words that are searched for. -/
def words_to_search (g_utf8_strdown : Str → Str) (case_sensitive : Bool)
    (forbidden_words : List Str) : List Str :=
  if !case_sensitive then forbidden_words.map g_utf8_strdown else forbidden_words

/-- Lines 86-93 of `check_text_for_forbidden_words`: the search loop, entered at index `i`
with `found = FALSE`; `rest` is `words_to_search` from index `i` on, the loop ending at the
terminating `NULL` (the empty `rest`) or at the first hit. -/
def search_loop (text_to_search : Str) (forbidden_words : List Str) (found_word : OutPtr) :
    List Str → Nat → Bool × OutPtr
  | [], _ => (false, found_word)
  | w :: rest, i =>
      if (strstr text_to_search w).isSome then
        (true, found_word.write forbidden_words[i]?)
      else search_loop text_to_search forbidden_words found_word rest (i + 1)

/-- The function `check_text_for_forbidden_words` (lines 56-104): the returned `gboolean`
and the cell behind `found_word` after the call. -/
def check_text_for_forbidden_words (g_utf8_strdown : Str → Str) (text : Option Str)
    (forbidden_words : Option (List Str)) (case_sensitive : Bool) (found_word : OutPtr) :
    Bool × OutPtr :=
  match text, forbidden_words with
  | none, _ => (false, found_word)
  | _, none => (false, found_word)
  | _, some [] => (false, found_word)
  | some text, some forbidden_words =>
      search_loop (text_to_search g_utf8_strdown case_sensitive text) forbidden_words found_word
        (words_to_search g_utf8_strdown case_sensitive forbidden_words) 0

/-- An `EAttachment` with the `GFile` it refers to: `file` is the result of
`e_attachment_ref_file` (`none` for `NULL`), `some basename` a file whose
`g_file_get_basename` is `basename`. -/
structure EAttachment where
  file : Option (Option Str)

/-- Lines 117-130 of `check_attachment_names`: the loop over the attachment list, entered
with `found = FALSE`; it ends at the end of the list or at the first hit. -/
def attachment_loop (g_utf8_strdown : Str → Str) (forbidden_words : Option (List Str))
    (case_sensitive : Bool) : List EAttachment → OutPtr → Bool × OutPtr
  | [], found_name => (false, found_name)
  | attachment :: next, found_name =>
      match attachment.file with
      | some (some basename) =>
          let r := check_text_for_forbidden_words g_utf8_strdown (some basename)
            forbidden_words case_sensitive found_name
          if r.1 then r
          else attachment_loop g_utf8_strdown forbidden_words case_sensitive next r.2
      | _ => attachment_loop g_utf8_strdown forbidden_words case_sensitive next found_name

/-- The function `check_attachment_names` (lines 107-134); `store` is the attachment list
of the `EAttachmentStore` (`none` for a `NULL` store). -/
def check_attachment_names (g_utf8_strdown : Str → Str) (store : Option (List EAttachment))
    (forbidden_words : Option (List Str)) (case_sensitive : Bool) (found_name : OutPtr) :
    Bool × OutPtr :=
  match store, forbidden_words with
  | none, _ => (false, found_name)
  | _, none => (false, found_name)
  | _, some [] => (false, found_name)
  | some attachments, some forbidden_words =>
      attachment_loop g_utf8_strdown (some forbidden_words) case_sensitive attachments found_name

/-- A `CamelDataWrapper`, given by what `camel_data_wrapper_decode_to_stream_sync` does
on it: the returned count, whether `error` was set, and the bytes that reached the
stream. -/
structure CamelDataWrapper where
  bytes_written : Int
  error : Bool
  data : Str

/-- The function `extract_text_from_camel_data_wrapper` (lines 137-168). -/
def extract_text_from_camel_data_wrapper : Option CamelDataWrapper → Option Str
  | none => none
  | some dw =>
      if dw.bytes_written ≥ 0 ∧ dw.error = false then
        if dw.data.length > 0 then some dw.data else none
      else none

/-- A `CamelMimePart`: `mime_type` is the result of `camel_content_type_simple` on its
content type, `content` the result of `camel_medium_get_content`, and `multipart` is
`none` when `CAMEL_IS_MULTIPART` fails on it and otherwise the sub-parts that
`camel_multipart_get_part` returns for the indices below `camel_multipart_get_number`. -/
inductive CamelMimePart where
  | mk (mime_type : Option Str) (content : Option CamelDataWrapper)
      (multipart : Option (List (Option CamelMimePart)))

/-- Lines 187-194 of `extract_text_from_camel_part`: what a part of a `text/` type appends
to the empty `result`, `content` being the result of `camel_medium_get_content`. -/
def text_content (content : Option CamelDataWrapper) : Str :=
  match content with
  | some dw =>
      match extract_text_from_camel_data_wrapper (some dw) with
      | some text => text
      | none => []
  | none => []

mutual
/-- The function `extract_text_from_camel_part` (lines 171-225) on a non-`NULL` part. -/
def extract_text_from_part : CamelMimePart → Option Str
  | .mk mime_type content multipart =>
      let result : Str :=
        if mime_type.isSome ∧ g_str_has_prefix (mime_type.getD []) "text/".toList then
          text_content content
        else if mime_type.isSome ∧ g_str_has_prefix (mime_type.getD []) "multipart/".toList then
          match multipart with
          | some parts => subparts_loop parts []
          | none => []
        else []
      if result.length = 0 then none else some result
/-- Lines 205-215: the loop over the sub-parts, `result` being the text gathered so far. -/
def subparts_loop : List (Option CamelMimePart) → Str → Str
  | [], result => result
  | none :: rest, result => subparts_loop rest result
  | some subpart :: rest, result =>
      match extract_text_from_part subpart with
      | some subtext => subparts_loop rest (result ++ subtext ++ ['\n'])
      | none => subparts_loop rest result
end

/-- The function `extract_text_from_camel_part` (lines 171-225). -/
def extract_text_from_camel_part : Option CamelMimePart → Option Str
  | none => none
  | some part => extract_text_from_part part

/-- The settings store behind a `GSettings` object: `forbidden_words` is what
`g_settings_get_strv` returns for `KEY_FORBIDDEN_WORDS` (`none` for `NULL`), the three
flags what `g_settings_get_boolean` returns for the three boolean keys. -/
structure GSettings where
  forbidden_words : Option (List Str)
  check_attachments : Bool
  check_message_body : Bool
  case_sensitive : Bool
  deriving DecidableEq

/-- The array `default_words` of `load_forbidden_words` (lines 32-35). -/
def default_words : List Str :=
  ["confidential".toList, "secret".toList, "password".toList,
   "private".toList, "internal".toList, "draft".toList]

/-- The function `load_forbidden_words` (lines 22-42). -/
def load_forbidden_words : Option GSettings → Option (List Str)
  | none => none
  | some settings =>
      match settings.forbidden_words with
      | none => some default_words
      | some [] => some default_words
      | some words => some words

/-- The function `save_forbidden_words` (lines 45-53): the settings store after the call. -/
def save_forbidden_words : Option GSettings → Option (List Str) → Option GSettings
  | none, _ => none
  | some settings, none => some settings
  | some settings, some words => some { settings with forbidden_words := some words }

/-- The three accessors of the composer that `get_message_text` may call. -/
inductive Access where
  | raw_message_text
  | message
  | text
  deriving DecidableEq, Repr

/-- The part of an `EMsgComposer` the plugin reads: the result of
`e_msg_composer_get_raw_message_text`, the properties `"message"` and `"text"`, and the
attachment view with its store (`e_msg_composer_get_attachment_view`,
`e_attachment_view_get_store`). -/
structure EMsgComposer where
  raw_message_text : Option Str
  message : Option CamelMimePart
  text : Option Str
  attachment_view : Option (Option (List EAttachment))

/-- The function `get_message_text` (lines 228-284): the returned string and the accessors
of the composer it called, in call order. -/
def get_message_text : Option EMsgComposer → Option Str × List Access
  | none => (none, [])
  | some composer =>
      let r : Str × List Access :=
        match composer.raw_message_text with
        | some (c :: raw_text) => (c :: raw_text, [Access.raw_message_text])
        | _ =>
            let full_text : Str :=
              match composer.message with
              | some message =>
                  match extract_text_from_camel_part (some message) with
                  | some msg_text => msg_text
                  | none => []
              | none => []
            if full_text.length = 0 then
              match composer.text with
              | some (c :: text) =>
                  (full_text ++ (c :: text),
                    [Access.raw_message_text, Access.message, Access.text])
              | _ => (full_text, [Access.raw_message_text, Access.message, Access.text])
            else (full_text, [Access.raw_message_text, Access.message])
      if r.1.length = 0 then (some [], r.2) else (some r.1, r.2)

/-- The function `get_message_text_simple` (lines 287-299). -/
def get_message_text_simple (composer : Option EMsgComposer) : Option Str × List Access :=
  let r := get_message_text composer
  match r.1 with
  | some (c :: text) => (some (c :: text), r.2)
  | _ => (some "Test message with confidential information in body".toList, r.2)

/-- The event target handed to the plugin. -/
structure EMEventTargetComposer where
  composer : Option EMsgComposer

/-- The value of `GTK_RESPONSE_YES` in `GtkResponseType`. -/
def GTK_RESPONSE_YES : Int := -8

/-- Lines 339-362 of `org_gnome_evolution_attachment_checker`: the attachment check and the
body check; the result is `should_cancel`, `found_item` and the accessors of the composer
that the body check called. -/
def gate_scan (g_utf8_strdown : Str → Str) (composer : EMsgComposer)
    (forbidden_words : Option (List Str))
    (check_attachments check_message_body case_sensitive : Bool) :
    Bool × Option Str × List Access :=
  let a : Bool × Option Str :=
    if check_attachments then
      match composer.attachment_view with
      | some (some store) =>
          if store.length > 0 then
            let r := check_attachment_names g_utf8_strdown (some store) forbidden_words
              case_sensitive (some none)
            (r.1, r.2.join)
          else (false, none)
      | _ => (false, none)
    else (false, none)
  if !a.1 ∧ check_message_body then
    let m := get_message_text_simple (some composer)
    match m.1 with
    | some (c :: message_text) =>
        let r := check_text_for_forbidden_words g_utf8_strdown (some (c :: message_text))
          forbidden_words case_sensitive (some a.2)
        (if r.1 then true else a.1, r.2.join, m.2)
    | _ => (a.1, a.2, m.2)
  else (a.1, a.2, [])

/-- The values of `should_cancel` and `found_item` at line 364 of
`org_gnome_evolution_attachment_checker`, with the accessors of the message body called so
far, for a valid target and an available settings store. -/
def gate_verdict (g_utf8_strdown : Str → Str) (settings : GSettings) (composer : EMsgComposer) :
    Bool × Option Str × List Access :=
  gate_scan g_utf8_strdown composer (load_forbidden_words (some settings))
    settings.check_attachments settings.check_message_body settings.case_sensitive

/-- What the host observes of one run of the plugin: the message of the confirmation
dialog if one was run, the value stored on the composer under `"presend_check_status"` if
one was stored, and the accessors of the message body that were called. -/
structure Outcome where
  dialog : Option Str
  presend_check_status : Option Nat
  accesses : List Access
  deriving DecidableEq

/-- The text of the confirmation dialog (lines 369-373). -/
def dialog_message (found_item : Str) : Str :=
  "Обнаружено запрещённое слово: \x27".toList ++ found_item ++
    "\x27\n\nВы уверены, что хотите отправить это письмо?".toList

/-- The function `org_gnome_evolution_attachment_checker` (lines 302-404);
`g_settings_new` is the settings object the call of that name returns and `gtk_dialog_run`
the response of the user to a dialog with the given message. -/
def org_gnome_evolution_attachment_checker (g_utf8_strdown : Str → Str)
    (g_settings_new : Option GSettings) (gtk_dialog_run : Str → Int)
    (target : Option EMEventTargetComposer) : Outcome :=
  match target with
  | none => ⟨none, none, []⟩
  | some target =>
  match target.composer with
  | none => ⟨none, none, []⟩
  | some composer =>
  match g_settings_new with
  | none => ⟨none, none, []⟩
  | some settings =>
  match load_forbidden_words (some settings) with
  | none => ⟨none, none, []⟩
  | some [] => ⟨none, none, []⟩
  | some forbidden_words =>
      let s := gate_scan g_utf8_strdown composer (some forbidden_words)
        settings.check_attachments settings.check_message_body settings.case_sensitive
      match s.1, s.2.1 with
      | true, some found_item =>
          let message := dialog_message found_item
          let response := gtk_dialog_run message
          if response ≠ GTK_RESPONSE_YES then ⟨some message, some 1, s.2.2⟩
          else ⟨some message, none, s.2.2⟩
      | _, _ => ⟨none, none, s.2.2⟩

/-- The value of `GTK_RESPONSE_NO` in `GtkResponseType`. -/
def GTK_RESPONSE_NO : Int := -9

/-- A text leaf of a content tree: a part of type `text/plain` whose content decodes
without error to `payload`. -/
def text_leaf (payload : Str) : CamelMimePart :=
  .mk (some "text/plain".toList) (some ⟨payload.length, false, payload⟩) none

/-- A composite node of a content tree: a part of type `multipart/mixed` that is a
multipart with the given sub-parts. -/
def composite (parts : List CamelMimePart) : CamelMimePart :=
  .mk (some "multipart/mixed".toList) none (some (parts.map some))

/-- An attachment whose file has the given basename. -/
def named_attachment (basename : String) : EAttachment := ⟨some (some basename.toList)⟩

/-- The settings store as shipped: no word list stored, attachments and body checked,
comparison not case sensitive. -/
def default_settings : GSettings := ⟨none, true, true, false⟩

/-- Whether the basename of an attachment can be resolved: its file reference and the
basename of that file are both there. -/
def resolvable (a : EAttachment) : Bool :=
  match a.file with
  | some (some _) => true
  | _ => false

/-- The normalization the specification describes: lower-cased when the comparison is not
case sensitive, unchanged when it is. -/
def normalized (g_utf8_strdown : Str → Str) (case_sensitive : Bool) (s : Str) : Str :=
  if case_sensitive then s else g_utf8_strdown s

/-- A lower-casing function on ASCII letters, used to instantiate `g_utf8_strdown`
on concrete ASCII inputs. -/
def ascii_strdown (s : Str) : Str := s.map Char.toLower

/-- An upper-casing function on ASCII letters. -/
def ascii_strup (s : Str) : Str := s.map Char.toUpper

/-- Upper-casing of text made of ASCII letters and the letter 'ß', which has no capital
form of its own and becomes "SS", as Unicode prescribes and as `g_utf8_strup` does. -/
def sharp_s_strup : Str → Str
  | [] => []
  | c :: s => (if c = 'ß' then ['S', 'S'] else [c.toUpper]) ++ sharp_s_strup s

/-- The payload of a text leaf as a list: the text its content decodes to when that is
there and not empty, nothing otherwise. -/
def leaf_payload (content : Option CamelDataWrapper) : List Str :=
  match extract_text_from_camel_data_wrapper content with
  | some P => [P]
  | none => []

mutual
/-- The payloads of the text leaves of a content tree, in left-to-right leaf order: of the
leaves of a `text/` type whose content decodes to a non-empty text, reached through
multiparts of a `multipart/` type only. -/
def leaf_payloads : CamelMimePart → List Str
  | .mk mime_type content multipart =>
      if mime_type.isSome ∧ g_str_has_prefix (mime_type.getD []) "text/".toList then
        leaf_payload content
      else if mime_type.isSome ∧ g_str_has_prefix (mime_type.getD []) "multipart/".toList then
        match multipart with
        | some parts => leaf_payloads_of parts
        | none => []
      else []
/-- The payloads of the text leaves below a list of sub-parts, in order. -/
def leaf_payloads_of : List (Option CamelMimePart) → List Str
  | [] => []
  | none :: rest => leaf_payloads_of rest
  | some part :: rest => leaf_payloads part ++ leaf_payloads_of rest
end

/-- The relation `TextLeafOf root P`: the tree `root` has a leaf of a `text/` type whose
content decodes to the non-empty text `P`, and the path from `root` to it goes through
multiparts of a `multipart/` type only. -/
inductive TextLeafOf : CamelMimePart → Str → Prop where
  | leaf (mime : Str) (content : Option CamelDataWrapper)
      (multipart : Option (List (Option CamelMimePart))) (P : Str) :
      g_str_has_prefix mime "text/".toList = true →
      extract_text_from_camel_data_wrapper content = some P →
      TextLeafOf (.mk (some mime) content multipart) P
  | node (mime : Str) (content : Option CamelDataWrapper)
      (parts : List (Option CamelMimePart)) (child : CamelMimePart) (P : Str) :
      g_str_has_prefix mime "multipart/".toList = true →
      some child ∈ parts →
      TextLeafOf child P →
      TextLeafOf (.mk (some mime) content (some parts)) P

/-- The relation `Interleaved Ps E`: the text `E` consists of the texts `Ps`, in this order,
each followed by a run of newlines, and of nothing else. -/
inductive Interleaved : List Str → Str → Prop where
  | nil : Interleaved [] []
  | cons (P s : Str) (Ps : List Str) (E : Str) :
      (∀ c ∈ s, c = '\n') → Interleaved Ps E → Interleaved (P :: Ps) (P ++ s ++ E)

/-- The GLib function `g_strchug`: the string without its leading whitespace,
`g_ascii_isspace` telling which characters are whitespace. -/
def g_strchug (g_ascii_isspace : Char → Bool) (s : Str) : Str := s.dropWhile g_ascii_isspace

/-- The GLib function `g_strchomp`: the string without its trailing whitespace. -/
def g_strchomp (g_ascii_isspace : Char → Bool) (s : Str) : Str := s.rdropWhile g_ascii_isspace

/-- The GLib macro `g_strstrip`, which is `g_strchomp (g_strchug (string))`; it changes the
string in place and returns it. -/
def g_strstrip (g_ascii_isspace : Char → Bool) (s : Str) : Str :=
  g_strchomp g_ascii_isspace (g_strchug g_ascii_isspace s)

/-- The part of `UIData` that `commit_changes` reads: the settings object, the keyword
column of the rows of the list store in row order (a cell may hold `NULL`), and the state
of the three toggle buttons. -/
structure UIData where
  settings : Option GSettings
  store : Option (List (Option Str))
  check_attachments : Bool
  check_message_body : Bool
  check_case_sensitive : Bool

/-- Lines 419-430 of `commit_changes`: the loop over the rows, `words_array` being the
entries gathered so far.  The first `g_strstrip` has trimmed `keyword` in place when the
second one is applied. -/
def commit_loop (g_ascii_isspace : Char → Bool) : List (Option Str) → List Str → List Str
  | [], words_array => words_array
  | none :: next, words_array => commit_loop g_ascii_isspace next words_array
  | some keyword :: next, words_array =>
      if (g_strstrip g_ascii_isspace keyword).length > 0 then
        commit_loop g_ascii_isspace next
          (words_array ++ [g_strstrip g_ascii_isspace (g_strstrip g_ascii_isspace keyword)])
      else commit_loop g_ascii_isspace next words_array

/-- The function `commit_changes` (lines 406-446): the settings object of the editor after
the call (`none` when there is none). -/
def commit_changes (g_ascii_isspace : Char → Bool) : Option UIData → Option GSettings
  | none => none
  | some ui =>
      match ui.store with
      | none => ui.settings
      | some rows =>
          let words := commit_loop g_ascii_isspace rows []
          (save_forbidden_words ui.settings (some words)).map fun settings =>
            { settings with
              check_attachments := ui.check_attachments
              check_message_body := ui.check_message_body
              case_sensitive := ui.check_case_sensitive }

/-- The whitespace of ASCII text: space, tab, line feed, form feed and carriage return;
used to instantiate `g_ascii_isspace` on concrete inputs. -/
def ascii_isspace (c : Char) : Bool :=
  c = ' ' || c = '\t' || c = '\n' || c = '\x0c' || c = '\r'

/-- The trimmed, non-empty subset of a word list as the specification describes it: every
entry without its leading and trailing whitespace, the entries that are empty after that
dropped, order and duplicates kept. -/
def trimmed_nonempty (g_ascii_isspace : Char → Bool) (L : List Str) : List Str :=
  (L.map (g_strstrip g_ascii_isspace)).filter (fun w => w ≠ [])

/-! ## The text matcher -/

theorem strstr_isSome_iff (haystack needle : Str) :
    (strstr haystack needle).isSome = true ↔ needle <:+: haystack := by
  induction haystack with
  | nil =>
      cases needle <;> simp [strstr]
  | cons c haystack ih =>
      unfold strstr
      by_cases h : needle.isPrefixOf (c :: haystack) = true
      · rw [if_pos h]
        have hp : needle <+: c :: haystack := List.isPrefixOf_iff_prefix.mp h
        simp [hp.isInfix]
      · rw [if_neg h, ih, List.infix_cons_iff]
        have hp : ¬ needle <+: c :: haystack := fun hp => h (List.isPrefixOf_iff_prefix.mpr hp)
        simp [hp]

theorem text_to_search_eq (g : Str → Str) (cs : Bool) (text : Str) :
    text_to_search g cs text = normalized g cs text := by
  cases cs <;> simp [text_to_search, normalized]

theorem words_to_search_eq (g : Str → Str) (cs : Bool) (W : List Str) :
    words_to_search g cs W = W.map (normalized g cs) := by
  cases cs
  · simp [words_to_search, normalized]
  · have h : normalized g true = id := funext fun s => by simp [normalized]
    simp [words_to_search, h]

/-- The search loop stops at the first word of `rest` that occurs in the text and writes the
word of `forbidden_words` at the same index; it writes nothing when no word occurs. -/
theorem search_loop_spec (t : Str) (F : List Str) (fw : OutPtr) (rest : List Str) (i : Nat) :
    (∃ k w, rest[k]? = some w ∧ w <:+: t ∧
        (∀ (j : Nat) (w' : Str), j < k → rest[j]? = some w' → ¬ w' <:+: t) ∧
        search_loop t F fw rest i = (true, fw.write F[i + k]?)) ∨
    ((∀ w ∈ rest, ¬ w <:+: t) ∧ search_loop t F fw rest i = (false, fw)) := by
  induction rest generalizing i with
  | nil => right; simp [search_loop]
  | cons w rest ih =>
      by_cases h : w <:+: t
      · left
        refine ⟨0, w, by simp, h, by simp, ?_⟩
        simp [search_loop, (strstr_isSome_iff t w).mpr h]
      · have hs : ¬ (strstr t w).isSome = true := fun hs => h ((strstr_isSome_iff t w).mp hs)
        have e : search_loop t F fw (w :: rest) i = search_loop t F fw rest (i + 1) := by
          simp [search_loop, hs]
        rcases ih (i + 1) with ⟨k, w', hk, hw', hmin, hres⟩ | ⟨hnone, hres⟩
        · left
          refine ⟨k + 1, w', by simpa using hk, hw', ?_, ?_⟩
          · intro j w'' hj hjw
            cases j with
            | zero =>
                simp at hjw
                subst hjw
                exact h
            | succ j =>
                exact hmin j w'' (by omega) (by simpa using hjw)
          · rw [e, hres]
            congr 3
            omega
        · right
          refine ⟨?_, by rw [e, hres]⟩
          intro w' hw'
          rcases List.mem_cons.mp hw' with rfl | hmem
          · exact h
          · exact hnone w' hmem

/-- Full description of the result of `check_text_for_forbidden_words` on a text and a word
list: a hit at the smallest index whose normalized word occurs in the normalized text, or
no hit and an untouched cell. -/
theorem check_text_spec (g : Str → Str) (T : Str) (W : List Str) (cs : Bool) (fw : OutPtr) :
    (∃ i w, W[i]? = some w ∧ normalized g cs w <:+: normalized g cs T ∧
        (∀ (j : Nat) (w' : Str), j < i → W[j]? = some w' →
          ¬ normalized g cs w' <:+: normalized g cs T) ∧
        check_text_for_forbidden_words g (some T) (some W) cs fw = (true, fw.write (some w))) ∨
    ((∀ w ∈ W, ¬ normalized g cs w <:+: normalized g cs T) ∧
        check_text_for_forbidden_words g (some T) (some W) cs fw = (false, fw)) := by
  cases W with
  | nil => right; simp [check_text_for_forbidden_words]
  | cons w0 W =>
      have e : check_text_for_forbidden_words g (some T) (some (w0 :: W)) cs fw =
          search_loop (normalized g cs T) (w0 :: W) fw ((w0 :: W).map (normalized g cs)) 0 := by
        simp [check_text_for_forbidden_words, text_to_search_eq, words_to_search_eq]
      rw [e]
      rcases search_loop_spec (normalized g cs T) (w0 :: W) fw
          ((w0 :: W).map (normalized g cs)) 0 with ⟨k, w, hk, hw, hmin, hres⟩ | ⟨hnone, hres⟩
      · left
        rw [List.getElem?_map] at hk
        cases hk' : (w0 :: W)[k]? with
        | none => rw [hk'] at hk; simp at hk
        | some v =>
            rw [hk'] at hk
            simp at hk
            subst hk
            refine ⟨k, v, hk', hw, ?_, ?_⟩
            · intro j w' hj hjw
              exact hmin j (normalized g cs w') hj (by rw [List.getElem?_map, hjw]; rfl)
            · rw [hres]
              simp [hk']
      · right
        refine ⟨?_, hres⟩
        intro w hw
        exact hnone (normalized g cs w) (List.mem_map_of_mem _ hw)

theorem check_text_null_list (g : Str → Str) (text : Option Str) (cs : Bool) (fw : OutPtr) :
    check_text_for_forbidden_words g text none cs fw = (false, fw) := by
  cases text <;> rfl

theorem check_text_empty_list (g : Str → Str) (text : Option Str) (cs : Bool) (fw : OutPtr) :
    check_text_for_forbidden_words g text (some []) cs fw = (false, fw) := by
  cases text <;> rfl

theorem check_text_null_text (g : Str → Str) (W : Option (List Str)) (cs : Bool) (fw : OutPtr) :
    check_text_for_forbidden_words g none W cs fw = (false, fw) := by
  rcases W with _ | _ | _ <;> rfl

/-- A hit is reported exactly when some normalized word occurs in the normalized text. -/
theorem check_text_found_iff (g : Str → Str) (T : Str) (W : List Str) (cs : Bool)
    (fw : OutPtr) :
    (check_text_for_forbidden_words g (some T) (some W) cs fw).1 = true ↔
      ∃ w ∈ W, normalized g cs w <:+: normalized g cs T := by
  rcases check_text_spec g T W cs fw with ⟨i, w, hi, hw, -, hres⟩ | ⟨hnone, hres⟩
  · rw [hres]
    simp only [true_iff]
    exact ⟨w, List.getElem?_mem hi, hw⟩
  · rw [hres]
    simp only [Bool.false_eq_true, false_iff]
    rintro ⟨w, hw, hin⟩
    exact hnone w hw hin

/-- Without a hit the cell behind `found_word` is left as it was. -/
theorem check_text_not_found (g : Str → Str) (text : Option Str) (W : Option (List Str))
    (cs : Bool) (fw : OutPtr)
    (h : (check_text_for_forbidden_words g text W cs fw).1 = false) :
    check_text_for_forbidden_words g text W cs fw = (false, fw) := by
  cases text with
  | none => exact check_text_null_text g W cs fw
  | some T =>
      cases W with
      | none => rfl
      | some W =>
          rcases check_text_spec g T W cs fw with ⟨i, w, -, -, -, hres⟩ | ⟨-, hres⟩
          · rw [hres] at h
            simp at h
          · exact hres

/-- Whether a hit is reported does not depend on the cell behind `found_word`. -/
theorem check_text_fst_indep (g : Str → Str) (text : Option Str) (W : Option (List Str))
    (cs : Bool) (fw fw' : OutPtr) :
    (check_text_for_forbidden_words g text W cs fw).1 =
      (check_text_for_forbidden_words g text W cs fw').1 := by
  cases text with
  | none => rw [check_text_null_text, check_text_null_text]
  | some T =>
      cases W with
      | none => rfl
      | some W =>
          have h1 := check_text_found_iff g T W cs fw
          have h2 := check_text_found_iff g T W cs fw'
          rw [Bool.eq_iff_iff, h1, h2]

/-- With a hit and a non-`NULL` out-parameter the cell holds a word afterwards. -/
theorem check_text_found_cell (g : Str → Str) (text : Option Str) (W : Option (List Str))
    (cs : Bool) (c : Option Str)
    (h : (check_text_for_forbidden_words g text W cs (some c)).1 = true) :
    ∃ w, check_text_for_forbidden_words g text W cs (some c) = (true, some (some w)) := by
  cases text with
  | none => simp [check_text_null_text] at h
  | some T =>
      cases W with
      | none => simp [check_text_null_list] at h
      | some W =>
          rcases check_text_spec g T W cs (some c) with ⟨i, w, -, -, -, hres⟩ | ⟨-, hres⟩
          · exact ⟨w, by rw [hres]; rfl⟩
          · rw [hres] at h
            simp at h

/-- Without regard to case the matcher is the search loop on the lower-cased text and the
lower-cased words. -/
theorem check_text_insensitive_eq (g : Str → Str) (T : Str) (W : List Str) (fw : OutPtr) :
    check_text_for_forbidden_words g (some T) (some W) false fw =
      search_loop (g T) W fw (W.map g) 0 := by
  cases W with
  | nil => rfl
  | cons w W => rfl

/-- Two runs of the search loop over the same searched words stop at the same index,
whatever the lists are from which the reported word is taken. -/
theorem search_loop_same_index (t : Str) (F F' : List Str) (fw : OutPtr) (rest : List Str)
    (i : Nat) :
    (search_loop t F fw rest i = (false, fw) ∧ search_loop t F' fw rest i = (false, fw)) ∨
    ∃ k, i ≤ k ∧ k < i + rest.length ∧
      search_loop t F fw rest i = (true, fw.write F[k]?) ∧
      search_loop t F' fw rest i = (true, fw.write F'[k]?) := by
  induction rest generalizing i with
  | nil => left; simp [search_loop]
  | cons w rest ih =>
      by_cases h : (strstr t w).isSome = true
      · right
        exact ⟨i, le_refl i, by simp, by simp [search_loop, h], by simp [search_loop, h]⟩
      · rcases ih (i + 1) with ⟨h1, h2⟩ | ⟨k, hk1, hk2, h1, h2⟩
        · left
          simp [search_loop, h, h1, h2]
        · right
          refine ⟨k, by omega, by simp only [List.length_cons]; omega, ?_, ?_⟩
          · simp [search_loop, h, h1]
          · simp [search_loop, h, h2]

/-! ## The attachment scanner -/

/-- The attachment loop returns the matcher's result for the first attachment whose
basename is resolvable and matches, and `(FALSE, untouched cell)` when there is none. -/
theorem attachment_loop_spec (g : Str → Str) (W : Option (List Str)) (cs : Bool)
    (fw : OutPtr) (store : List EAttachment) :
    (∃ pre a post b, store = pre ++ a :: post ∧ a.file = some (some b) ∧
        (∀ a' ∈ pre, ∀ b', a'.file = some (some b') →
          (check_text_for_forbidden_words g (some b') W cs fw).1 = false) ∧
        (check_text_for_forbidden_words g (some b) W cs fw).1 = true ∧
        attachment_loop g W cs store fw = check_text_for_forbidden_words g (some b) W cs fw) ∨
    ((∀ a ∈ store, ∀ b, a.file = some (some b) →
          (check_text_for_forbidden_words g (some b) W cs fw).1 = false) ∧
        attachment_loop g W cs store fw = (false, fw)) := by
  induction store with
  | nil => right; simp [attachment_loop]
  | cons a store ih =>
      have skip : (∀ b, a.file = some (some b) →
            (check_text_for_forbidden_words g (some b) W cs fw).1 = false) →
          attachment_loop g W cs (a :: store) fw = attachment_loop g W cs store fw := by
        intro h
        rcases hf : a.file with _ | _ | b
        · simp [attachment_loop, hf]
        · simp [attachment_loop, hf]
        · have hb := h b hf
          simp [attachment_loop, hf, check_text_not_found g (some b) W cs fw hb]
      by_cases hm : ∃ b, a.file = some (some b) ∧
          (check_text_for_forbidden_words g (some b) W cs fw).1 = true
      · obtain ⟨b, hf, hb⟩ := hm
        left
        refine ⟨[], a, store, b, rfl, hf, by simp, hb, ?_⟩
        simp [attachment_loop, hf, hb]
      · have hno : ∀ b, a.file = some (some b) →
            (check_text_for_forbidden_words g (some b) W cs fw).1 = false := by
          intro b hf
          by_contra hb
          exact hm ⟨b, hf, by simpa using hb⟩
        rcases ih with ⟨pre, a1, post, b, hst, hf, hpre, hb, hres⟩ | ⟨hnone, hres⟩
        · left
          refine ⟨a :: pre, a1, post, b, by rw [hst]; rfl, hf, ?_, hb, by rw [skip hno, hres]⟩
          intro a' ha' b' hf'
          rcases List.mem_cons.mp ha' with rfl | hmem
          · exact hno b' hf'
          · exact hpre a' hmem b' hf'
        · right
          refine ⟨?_, by rw [skip hno, hres]⟩
          intro a' ha' b' hf'
          rcases List.mem_cons.mp ha' with rfl | hmem
          · exact hno b' hf'
          · exact hnone a' hmem b' hf'

/-- On a non-`NULL` store `check_attachment_names` is the attachment loop. -/
theorem check_attachment_names_eq_loop (g : Str → Str) (W : Option (List Str)) (cs : Bool)
    (fw : OutPtr) (store : List EAttachment) :
    check_attachment_names g (some store) W cs fw = attachment_loop g W cs store fw := by
  have hfalse : ∀ (l : List EAttachment),
      (∀ b, check_text_for_forbidden_words g (some b) W cs fw = (false, fw)) →
      attachment_loop g W cs l fw = (false, fw) := by
    intro l h
    induction l with
    | nil => rfl
    | cons a l ih =>
        rcases hf : a.file with _ | _ | b
        · simp [attachment_loop, hf, ih]
        · simp [attachment_loop, hf, ih]
        · simp [attachment_loop, hf, h b, ih]
  rcases W with _ | _ | ⟨w, W⟩
  · rw [hfalse store (fun b => check_text_null_list g _ cs fw)]
    rfl
  · rw [hfalse store (fun b => check_text_empty_list g _ cs fw)]
    rfl
  · rfl

/-- Attachments without a resolvable basename do not influence the attachment loop. -/
theorem attachment_loop_filter (g : Str → Str) (W : Option (List Str)) (cs : Bool)
    (fw : OutPtr) (store : List EAttachment) :
    attachment_loop g W cs (store.filter resolvable) fw =
      attachment_loop g W cs store fw := by
  induction store generalizing fw with
  | nil => rfl
  | cons a store ih =>
      rcases hf : a.file with _ | _ | b
      · have hr : resolvable a = false := by simp [resolvable, hf]
        rw [List.filter_cons_of_neg (by simp [hr]), ih]
        simp [attachment_loop, hf]
      · have hr : resolvable a = false := by simp [resolvable, hf]
        rw [List.filter_cons_of_neg (by simp [hr]), ih]
        simp [attachment_loop, hf]
      · have hr : resolvable a = true := by simp [resolvable, hf]
        rw [List.filter_cons_of_pos hr]
        simp only [attachment_loop, hf, ih]

/-- With a hit and a non-`NULL` out-parameter the cell holds a word after the scan. -/
theorem check_attachment_names_found_cell (g : Str → Str) (store : Option (List EAttachment))
    (W : Option (List Str)) (cs : Bool) (c : Option Str)
    (h : (check_attachment_names g store W cs (some c)).1 = true) :
    ∃ w, check_attachment_names g store W cs (some c) = (true, some (some w)) := by
  cases store with
  | none =>
      rcases W with _ | _ | _ <;> simp [check_attachment_names] at h
  | some store =>
      rw [check_attachment_names_eq_loop] at h ⊢
      rcases attachment_loop_spec g W cs (some c) store with
        ⟨pre, a, post, b, -, -, -, hb, hres⟩ | ⟨-, hres⟩
      · rw [hres]
        exact check_text_found_cell g (some b) W cs c hb
      · rw [hres] at h
        simp at h

/-! ## The content extractor -/

/-- The text that the sub-parts of a multipart contribute: every non-`NULL` extraction in
part order, each followed by one newline. -/
theorem subparts_loop_eq (parts : List (Option CamelMimePart)) (result : Str) :
    subparts_loop parts result =
      result ++ ((parts.filterMap extract_text_from_camel_part).map (· ++ ['\n'])).flatten := by
  induction parts generalizing result with
  | nil => simp [subparts_loop]
  | cons p parts ih =>
      cases p with
      | none => simp [subparts_loop, ih, extract_text_from_camel_part]
      | some p =>
          cases h : extract_text_from_part p with
          | none => simp [subparts_loop, ih, extract_text_from_camel_part, h]
          | some t => simp [subparts_loop, ih, extract_text_from_camel_part, h]

theorem multipart_not_text (mime : Str)
    (h : g_str_has_prefix mime "multipart/".toList = true) :
    g_str_has_prefix mime "text/".toList = false := by
  cases mime with
  | nil => simp [ g_str_has_prefix] at h
  | cons c mime =>
      simp [ g_str_has_prefix, List.isPrefixOf] at h ⊢
      intro hc
      exact absurd (h.1.trans hc.symm) (by decide)

/-- A non-`NULL` extraction is never the empty string. -/
theorem extract_ne_nil (part : Option CamelMimePart) :
    extract_text_from_camel_part part ≠ some [] := by
  cases part with
  | none => simp [extract_text_from_camel_part]
  | some p =>
      cases p with
      | mk mime_type content multipart =>
          have aux : ∀ r : Str, (if r.length = 0 then none else some r) ≠ some [] := by
            intro r
            cases r <;> simp
          rw [extract_text_from_camel_part]
          unfold extract_text_from_part
          exact aux _

/-! ## The send gate -/

/-- With an available settings store the loaded word list is never empty. -/
theorem load_nonempty (settings : GSettings) :
    ∃ w W, load_forbidden_words (some settings) = some (w :: W) := by
  rcases h : settings.forbidden_words with _ | _ | ⟨w, W⟩
  · exact ⟨"confidential".toList, default_words.tail,
      by simp [load_forbidden_words, h, default_words]⟩
  · exact ⟨"confidential".toList, default_words.tail,
      by simp [load_forbidden_words, h, default_words]⟩
  · exact ⟨w, W, by simp [load_forbidden_words, h]⟩

/-- The gate, for a valid target and an available settings store, in terms of the verdict
reached at line 364. -/
theorem gate_eq (g : Str → Str) (settings : GSettings) (dlg : Str → Int)
    (composer : EMsgComposer) :
    org_gnome_evolution_attachment_checker g (some settings) dlg (some ⟨some composer⟩) =
      match (gate_verdict g settings composer).1, (gate_verdict g settings composer).2.1 with
      | true, some found_item =>
          if dlg (dialog_message found_item) ≠ GTK_RESPONSE_YES then
            ⟨some (dialog_message found_item), some 1, (gate_verdict g settings composer).2.2⟩
          else ⟨some (dialog_message found_item), none, (gate_verdict g settings composer).2.2⟩
      | _, _ => ⟨none, none, (gate_verdict g settings composer).2.2⟩ := by
  obtain ⟨w, W, hW⟩ := load_nonempty settings
  simp only [org_gnome_evolution_attachment_checker, gate_verdict, hW]

/-- Whenever `should_cancel` is set at line 364, `found_item` holds a word. -/
theorem gate_scan_found_item (g : Str → Str) (composer : EMsgComposer)
    (W : Option (List Str)) (ca cb cs : Bool)
    (h : (gate_scan g composer W ca cb cs).1 = true) :
    ∃ w, (gate_scan g composer W ca cb cs).2.1 = some w := by
  unfold gate_scan at h ⊢
  generalize ha : (if ca = true then
      match composer.attachment_view with
      | some (some store) =>
          if store.length > 0 then
            ((check_attachment_names g (some store) W cs (some none)).1,
              (check_attachment_names g (some store) W cs (some none)).2.join)
          else (false, none)
      | _ => (false, none)
    else ((false, none) : Bool × Option Str)) = a at h ⊢
  have hattach : a.1 = true → ∃ w, a.2 = some w := by
    intro h1
    subst ha
    split at h1
    · split at h1
      · next store hv =>
          split at h1
          · obtain ⟨w, hw⟩ := check_attachment_names_found_cell g (some store) W cs none h1
            refine ⟨w, ?_⟩
            simp [hv, *]
          · simp at h1
      · simp at h1
    · simp at h1
  clear ha
  obtain ⟨a1, a2⟩ := a
  simp only at h hattach ⊢
  cases a1 with
  | true => simpa using hattach rfl
  | false =>
      cases cb with
      | false => simp at h
      | true =>
          simp only [Bool.not_false, and_self, if_true] at h ⊢
          split at h
          · next c message_text hm =>
              simp only [hm]
              by_cases hr : (check_text_for_forbidden_words g (some (c :: message_text)) W cs
                  (some a2)).1 = true
              · obtain ⟨w, hw⟩ := check_text_found_cell g _ W cs a2 hr
                exact ⟨w, by rw [hw]; rfl⟩
              · simp [hr] at h
          · simp at h

/-! ## The claims -/

/-- C1 (the code departs from the claim): a composition whose raw text, content tree and
text property all yield nothing and whose only attachment does not match is not treated
as clean.  With the shipped settings the body check runs on the test sentence that
`get_message_text_simple` substitutes for the empty text, the confirmation dialog is
shown for the word "confidential", and a negative answer sets `presend_check_status`. -/
theorem C1_empty_body_is_checked_as_test_sentence :
    get_message_text (some ⟨some [], none, some [], some (some [named_attachment "report.pdf"])⟩)
      = (some [], [Access.raw_message_text, Access.message, Access.text]) ∧
    org_gnome_evolution_attachment_checker ascii_strdown (some default_settings)
        (fun _ => GTK_RESPONSE_NO)
        (some ⟨some ⟨some [], none, some [], some (some [named_attachment "report.pdf"])⟩⟩)
      = ⟨some (dialog_message "confidential".toList), some 1,
          [Access.raw_message_text, Access.message, Access.text]⟩ := by
  decide

/-- C2: `check_text_for_forbidden_words` reports a hit exactly when some word of the list,
normalized under the case flag, is a substring of the text normalized the same way; on a
hit the cell behind `found_word` receives the word at the smallest such index in its
original spelling, and without a hit the cell is untouched.  With the words "secret",
"password" the text "my password is secret" reports "secret", and with the word "secret"
the text "secretly yours" reports "secret". -/
theorem C2_check_text_reports_first_listed_word (g_utf8_strdown : Str → Str) :
    (∀ (T : Str) (W : List Str) (cs : Bool) (found_word : OutPtr),
      ((check_text_for_forbidden_words g_utf8_strdown (some T) (some W) cs found_word).1 = true ↔
        ∃ w ∈ W, normalized g_utf8_strdown cs w <:+: normalized g_utf8_strdown cs T) ∧
      ((∃ (i : Nat) (w : Str), W[i]? = some w ∧
          normalized g_utf8_strdown cs w <:+: normalized g_utf8_strdown cs T ∧
          (∀ (j : Nat) (v : Str), j < i → W[j]? = some v →
            ¬ normalized g_utf8_strdown cs v <:+: normalized g_utf8_strdown cs T) ∧
          check_text_for_forbidden_words g_utf8_strdown (some T) (some W) cs found_word
            = (true, found_word.write (some w))) ∨
        ((∀ w ∈ W, ¬ normalized g_utf8_strdown cs w <:+: normalized g_utf8_strdown cs T) ∧
          check_text_for_forbidden_words g_utf8_strdown (some T) (some W) cs found_word
            = (false, found_word)))) ∧
    check_text_for_forbidden_words g_utf8_strdown (some "my password is secret".toList)
        (some ["secret".toList, "password".toList]) true (some none)
      = (true, some (some "secret".toList)) ∧
    check_text_for_forbidden_words ascii_strdown (some "my password is secret".toList)
        (some ["secret".toList, "password".toList]) false (some none)
      = (true, some (some "secret".toList)) ∧
    check_text_for_forbidden_words g_utf8_strdown (some "secretly yours".toList)
        (some ["secret".toList]) true (some none)
      = (true, some (some "secret".toList)) ∧
    check_text_for_forbidden_words ascii_strdown (some "secretly yours".toList)
        (some ["secret".toList]) false (some none)
      = (true, some (some "secret".toList)) := by
  refine ⟨fun T W cs found_word => ⟨check_text_found_iff _ T W cs found_word,
    check_text_spec _ T W cs found_word⟩, rfl, by decide, rfl, by decide⟩

/-- C3 as stated fails: the composite with the text leaves "A" and "B" extracts to
"A\nB\n", with a newline after the last contribution, and not to "A\nB". -/
theorem C3_counterexample_trailing_newline :
    extract_text_from_camel_part
        (some (composite [text_leaf "A".toList, text_leaf "B".toList]))
      = some "A\nB\n".toList ∧
    extract_text_from_camel_part
        (some (composite [text_leaf "A".toList, text_leaf "B".toList]))
      ≠ some "A\nB".toList := by
  decide

/-- C3 (amended): on a part of a `multipart/` type that is a multipart,
`extract_text_from_camel_part` returns the non-`NULL` extractions of the sub-parts in part
order, each followed by exactly one newline, the last one included, and `NULL` when no
sub-part contributes; a part of a `text/` type extracts to its decoded content, `NULL`
when that is empty.  Two text leaves "A" and "B" give "A\nB\n". -/
theorem C3_composite_appends_newline_after_each (mime : Str)
    (content : Option CamelDataWrapper) (parts : List (Option CamelMimePart))
    (h : g_str_has_prefix mime "multipart/".toList = true) :
    extract_text_from_camel_part (some (.mk (some mime) content (some parts)))
      = (if ((parts.filterMap extract_text_from_camel_part).map (· ++ ['\n'])).flatten = []
          then none
          else some ((parts.filterMap extract_text_from_camel_part).map (· ++ ['\n'])).flatten) ∧
    (∀ payload : Str, extract_text_from_camel_part (some (text_leaf payload))
      = if payload = [] then none else some payload) ∧
    extract_text_from_camel_part
        (some (composite [text_leaf "A".toList, text_leaf "B".toList]))
      = some "A\nB\n".toList := by
  refine ⟨?_, ?_, by decide⟩
  · have ht := multipart_not_text mime h
    simp only [extract_text_from_camel_part, extract_text_from_part, Option.isSome_some,
      Option.getD_some, ht, h, subparts_loop_eq, List.nil_append, List.length_eq_zero]
    simp
  · intro payload
    cases payload with
    | nil => decide
    | cons c payload =>
        have hlen : (0 : Int) ≤ ↑payload.length + 1 := by omega
        simp [extract_text_from_camel_part, extract_text_from_part, text_leaf, text_content,
          extract_text_from_camel_data_wrapper, g_str_has_prefix, hlen]

/-- Witness of C3 (amended) at a `multipart/mixed` part with the text leaves "A", "B". -/
theorem C3_composite_appends_newline_after_each_witness :
    g_str_has_prefix "multipart/mixed".toList "multipart/".toList = true ∧
    extract_text_from_camel_part (some (.mk (some "multipart/mixed".toList) none
        (some [some (text_leaf "A".toList), some (text_leaf "B".toList)])))
      = some "A\nB\n".toList :=
  ⟨by decide, (C3_composite_appends_newline_after_each "multipart/mixed".toList none
      [some (text_leaf "A".toList), some (text_leaf "B".toList)] (by decide)).1.trans
      (by decide)⟩

/-- C4 as stated fails: on the empty text and the word list whose only word is the empty
string a hit is reported and the empty word is written, under either case flag. -/
theorem C4_counterexample_empty_word :
    check_text_for_forbidden_words ascii_strdown (some []) (some [[]]) true (some none)
      = (true, some (some [])) ∧
    check_text_for_forbidden_words ascii_strdown (some []) (some [[]]) false (some none)
      = (true, some (some [])) := by
  decide

/-- C4 (amended): on the empty text `check_text_for_forbidden_words` reports no hit for
every word list none of whose normalized words is empty (lower-casing the empty string
giving the empty string); on a `NULL` text, on the empty word list and on a `NULL` word
list it reports no hit whatever the other arguments are.  In all these cases the cell
behind `found_word` is left untouched. -/
theorem C4_no_match_on_empty_text_or_empty_list (g_utf8_strdown : Str → Str) :
    (∀ (W : List Str) (cs : Bool) (found_word : OutPtr),
      g_utf8_strdown [] = [] →
      (∀ w ∈ W, normalized g_utf8_strdown cs w ≠ []) →
      check_text_for_forbidden_words g_utf8_strdown (some []) (some W) cs found_word
        = (false, found_word)) ∧
    (∀ (W : Option (List Str)) (cs : Bool) (found_word : OutPtr),
      check_text_for_forbidden_words g_utf8_strdown none W cs found_word
        = (false, found_word)) ∧
    (∀ (T : Option Str) (cs : Bool) (found_word : OutPtr),
      check_text_for_forbidden_words g_utf8_strdown T (some []) cs found_word
        = (false, found_word)) ∧
    (∀ (T : Option Str) (cs : Bool) (found_word : OutPtr),
      check_text_for_forbidden_words g_utf8_strdown T none cs found_word
        = (false, found_word)) := by
  refine ⟨?_, check_text_null_text _, check_text_empty_list _, check_text_null_list _⟩
  intro W cs found_word hdown hne
  apply check_text_not_found
  rw [Bool.eq_false_iff]
  intro hfound
  obtain ⟨w, hw, hin⟩ := (check_text_found_iff _ [] W cs found_word).mp hfound
  have hnil : normalized g_utf8_strdown cs [] = [] := by
    cases cs <;> simp [normalized, hdown]
  rw [hnil, List.infix_nil] at hin
  exact hne w hw hin

/-- Witness of C4 (amended) at the shipped word list, compared without regard to case. -/
theorem C4_no_match_on_empty_text_or_empty_list_witness :
    ascii_strdown [] = [] ∧
    (∀ w ∈ default_words, normalized ascii_strdown false w ≠ []) ∧
    check_text_for_forbidden_words ascii_strdown (some []) (some default_words) false
      (some none) = (false, some none) :=
  ⟨rfl, by decide,
    (C4_no_match_on_empty_text_or_empty_list ascii_strdown).1 default_words false (some none)
      rfl (by decide)⟩

/-- C5 as stated fails: when the stored list is empty the round trip stores the six
built-in words, and a stored list with an empty string keeps it. -/
theorem C5_counterexample_roundtrip :
    (save_forbidden_words (some ⟨some [], true, true, false⟩)
        (load_forbidden_words (some ⟨some [], true, true, false⟩))).map
      (fun st => st.forbidden_words) = some (some default_words) ∧
    some default_words ≠ some (([] : List Str).filter (fun w => w ≠ [])) ∧
    (save_forbidden_words (some ⟨some [[], "draft".toList], true, true, false⟩)
        (load_forbidden_words (some ⟨some [[], "draft".toList], true, true, false⟩))).map
      (fun st => st.forbidden_words) = some (some [[], "draft".toList]) ∧
    some [[], "draft".toList] ≠
      some (([[], "draft".toList] : List Str).filter (fun w => w ≠ [])) := by
  decide

/-- C5 (amended): with the settings store available, saving what was just loaded leaves a
non-empty stored list exactly as it was, its empty strings included, and replaces an
empty or absent stored list by the built-in default list; the three flags are not
changed. -/
theorem C5_roundtrip_keeps_nonempty_list (settings : GSettings) :
    (∀ S : List Str, settings.forbidden_words = some S → S ≠ [] →
      save_forbidden_words (some settings) (load_forbidden_words (some settings))
        = some settings) ∧
    (settings.forbidden_words = some [] ∨ settings.forbidden_words = none →
      save_forbidden_words (some settings) (load_forbidden_words (some settings))
        = some { settings with forbidden_words := some default_words }) := by
  obtain ⟨fw, a, b, c⟩ := settings
  constructor
  · intro S hS hne
    simp only at hS
    subst hS
    cases S with
    | nil => exact absurd rfl hne
    | cons w S => rfl
  · rintro (h | h) <;> simp only at h <;> subst h <;> rfl

/-- Witness of C5 (amended) at a stored list with an empty string in it. -/
theorem C5_roundtrip_keeps_nonempty_list_witness :
    save_forbidden_words (some ⟨some [[], "draft".toList], true, true, false⟩)
        (load_forbidden_words (some ⟨some [[], "draft".toList], true, true, false⟩))
      = some ⟨some [[], "draft".toList], true, true, false⟩ ∧
    save_forbidden_words (some ⟨some [], true, true, false⟩)
        (load_forbidden_words (some ⟨some [], true, true, false⟩))
      = some ⟨some default_words, true, true, false⟩ :=
  ⟨(C5_roundtrip_keeps_nonempty_list ⟨some [[], "draft".toList], true, true, false⟩).1
      [[], "draft".toList] rfl (by decide),
   (C5_roundtrip_keeps_nonempty_list ⟨some [], true, true, false⟩).2 (Or.inl rfl)⟩

/-- C6: when `check_attachments` is set, the composition has at least one attachment and
`check_attachment_names` reports a hit, the confirmation dialog shows the word the
attachment scan reported, between quotes inside the fixed warning text, no accessor of the
message body is called, and the outcome of the gate is the same whatever the raw text, the
content tree and the text property are: the dialog with that word, and
`presend_check_status` set exactly when the answer is not `GTK_RESPONSE_YES` (-8). -/
theorem C6_attachment_hit_skips_body (g_utf8_strdown : Str → Str) (settings : GSettings)
    (gtk_dialog_run : Str → Int) (store : List EAttachment)
    (hflag : settings.check_attachments = true) (hstore : store.length > 0)
    (hhit : (check_attachment_names g_utf8_strdown (some store)
      (load_forbidden_words (some settings)) settings.case_sensitive (some none)).1 = true) :
    ∃ w, check_attachment_names g_utf8_strdown (some store)
        (load_forbidden_words (some settings)) settings.case_sensitive (some none)
          = (true, some (some w)) ∧
      dialog_message w = "Обнаружено запрещённое слово: \x27".toList ++ w ++
        "\x27\n\nВы уверены, что хотите отправить это письмо?".toList ∧
      w <:+: dialog_message w ∧
      GTK_RESPONSE_YES = -8 ∧
      ∀ (raw_message_text : Option Str) (message : Option CamelMimePart) (text : Option Str),
        org_gnome_evolution_attachment_checker g_utf8_strdown (some settings) gtk_dialog_run
            (some ⟨some ⟨raw_message_text, message, text, some (some store)⟩⟩)
          = ⟨some (dialog_message w),
              if gtk_dialog_run (dialog_message w) ≠ GTK_RESPONSE_YES then some 1 else none,
              []⟩ := by
  obtain ⟨w, hw⟩ := check_attachment_names_found_cell g_utf8_strdown (some store)
    (load_forbidden_words (some settings)) settings.case_sensitive none hhit
  refine ⟨w, hw, rfl, ⟨_, _, rfl⟩, rfl, ?_⟩
  intro raw_message_text message text
  have hv : gate_verdict g_utf8_strdown settings
      ⟨raw_message_text, message, text, some (some store)⟩ = (true, some w, []) := by
    simp [gate_verdict, gate_scan, hflag, hstore, hw]
  rw [gate_eq, hv]
  by_cases hr : gtk_dialog_run (dialog_message w) = GTK_RESPONSE_YES <;> simp [hr]

/-- Witness of C6: the attachment "confidential-report.pdf" with the shipped settings, a
negative answer, and a body that contains the different forbidden word "secret". -/
theorem C6_attachment_hit_skips_body_witness :
    org_gnome_evolution_attachment_checker ascii_strdown (some default_settings)
        (fun _ => GTK_RESPONSE_NO)
        (some ⟨some ⟨some "a secret plan".toList, none, none,
          some (some [named_attachment "confidential-report.pdf"])⟩⟩)
      = ⟨some ("Обнаружено запрещённое слово: \x27confidential\x27\n\n".toList ++
          "Вы уверены, что хотите отправить это письмо?".toList), some 1, []⟩ := by
  obtain ⟨w, hw, -, -, -, h⟩ := C6_attachment_hit_skips_body ascii_strdown default_settings
    (fun _ => GTK_RESPONSE_NO) [named_attachment "confidential-report.pdf"] rfl (by decide)
    (by decide)
  have hw' : w = "confidential".toList := by
    have e : check_attachment_names ascii_strdown
        (some [named_attachment "confidential-report.pdf"])
        (load_forbidden_words (some default_settings)) default_settings.case_sensitive
        (some none) = (true, some (some "confidential".toList)) := by decide
    rw [e] at hw
    simpa using hw.symm
  subst hw'
  rw [h]
  decide

/-- C7: `get_message_text` returns the raw message text when that is non-empty, calling
no other accessor; else the structural extraction of the `"message"` property when that
is non-empty, without reading the `"text"` property; else the `"text"` property, which is
read in this case only; and the empty string when all three are empty. -/
theorem C7_get_message_text_fallback_chain (composer : EMsgComposer) :
    get_message_text (some composer) =
      (if composer.raw_message_text.getD [] ≠ [] then
        (some (composer.raw_message_text.getD []), [Access.raw_message_text])
      else if (extract_text_from_camel_part composer.message).getD [] ≠ [] then
        (some ((extract_text_from_camel_part composer.message).getD []),
          [Access.raw_message_text, Access.message])
      else
        (some (composer.text.getD []),
          [Access.raw_message_text, Access.message, Access.text])) ∧
    (∀ (c : Char) (raw : Str) (message : Option CamelMimePart) (text : Option Str),
      get_message_text (some ⟨some (c :: raw), message, text, composer.attachment_view⟩)
        = (some (c :: raw), [Access.raw_message_text])) ∧
    (Access.text ∈ (get_message_text (some composer)).2 ↔
      composer.raw_message_text.getD [] = [] ∧
        (extract_text_from_camel_part composer.message).getD [] = []) := by
  have main : ∀ composer : EMsgComposer, get_message_text (some composer) =
      (if composer.raw_message_text.getD [] ≠ [] then
        (some (composer.raw_message_text.getD []), [Access.raw_message_text])
      else if (extract_text_from_camel_part composer.message).getD [] ≠ [] then
        (some ((extract_text_from_camel_part composer.message).getD []),
          [Access.raw_message_text, Access.message])
      else
        (some (composer.text.getD []),
          [Access.raw_message_text, Access.message, Access.text])) := by
    rintro ⟨raw, message, text, view⟩
    have hx := extract_ne_nil message
    rcases raw with _ | _ | ⟨c, raw⟩ <;>
      rcases message with _ | message <;>
      rcases text with _ | _ | ⟨d, text⟩ <;>
      first
        | simp [get_message_text, extract_text_from_camel_part]; done
        | (rcases he : extract_text_from_camel_part (some message) with _ | _ | ⟨e, t⟩
           · simp [get_message_text, he]
           · exact absurd he hx
           · simp [get_message_text, he])
  refine ⟨main composer, fun c raw message text => ?_, ?_⟩
  · rw [main]
    simp
  · rw [main]
    by_cases h1 : composer.raw_message_text.getD [] = []
    · by_cases h2 : (extract_text_from_camel_part composer.message).getD [] = []
      · simp [h1, h2]
      · simp [h1, h2]
    · simp [h1]

/-- The gate in terms of its own flag: for a valid target and an available settings store
the gate sets `presend_check_status` exactly when `should_cancel` is set at line 364 and
the answer to the dialog is not `GTK_RESPONSE_YES`.  With the flag set the dialog shows
the recorded word; with the flag unset, in particular when neither attachments nor the
body are checked, no dialog is run and the indicator is left unset; with the answer
`GTK_RESPONSE_YES` the indicator is left unset.  Without a target, a composer or a
settings store the gate does nothing. -/
theorem gate_indicator_iff_should_cancel (g_utf8_strdown : Str → Str)
    (settings : GSettings) (gtk_dialog_run : Str → Int) (composer : EMsgComposer) :
    ((org_gnome_evolution_attachment_checker g_utf8_strdown (some settings) gtk_dialog_run
        (some ⟨some composer⟩)).presend_check_status = some 1 ↔
      (gate_verdict g_utf8_strdown settings composer).1 = true ∧
        ∃ w, (gate_verdict g_utf8_strdown settings composer).2.1 = some w ∧
          gtk_dialog_run (dialog_message w) ≠ GTK_RESPONSE_YES) ∧
    ((org_gnome_evolution_attachment_checker g_utf8_strdown (some settings) gtk_dialog_run
        (some ⟨some composer⟩)).presend_check_status = some 1 ∨
      (org_gnome_evolution_attachment_checker g_utf8_strdown (some settings) gtk_dialog_run
        (some ⟨some composer⟩)).presend_check_status = none) ∧
    ((gate_verdict g_utf8_strdown settings composer).1 = true →
      ∃ w, (gate_verdict g_utf8_strdown settings composer).2.1 = some w ∧
        (org_gnome_evolution_attachment_checker g_utf8_strdown (some settings) gtk_dialog_run
          (some ⟨some composer⟩)).dialog = some (dialog_message w) ∧
        (gtk_dialog_run (dialog_message w) = GTK_RESPONSE_YES →
          (org_gnome_evolution_attachment_checker g_utf8_strdown (some settings)
            gtk_dialog_run (some ⟨some composer⟩)).presend_check_status = none)) ∧
    ((gate_verdict g_utf8_strdown settings composer).1 = false →
      (org_gnome_evolution_attachment_checker g_utf8_strdown (some settings) gtk_dialog_run
          (some ⟨some composer⟩)).dialog = none ∧
        (org_gnome_evolution_attachment_checker g_utf8_strdown (some settings) gtk_dialog_run
          (some ⟨some composer⟩)).presend_check_status = none) ∧
    (settings.check_attachments = false → settings.check_message_body = false →
      (gate_verdict g_utf8_strdown settings composer).1 = false ∧
        org_gnome_evolution_attachment_checker g_utf8_strdown (some settings) gtk_dialog_run
          (some ⟨some composer⟩) = ⟨none, none, []⟩) ∧
    org_gnome_evolution_attachment_checker g_utf8_strdown (some settings) gtk_dialog_run none
      = ⟨none, none, []⟩ ∧
    org_gnome_evolution_attachment_checker g_utf8_strdown (some settings) gtk_dialog_run
      (some ⟨none⟩) = ⟨none, none, []⟩ ∧
    org_gnome_evolution_attachment_checker g_utf8_strdown none gtk_dialog_run
      (some ⟨some composer⟩) = ⟨none, none, []⟩ := by
  rw [gate_eq]
  have hflags : settings.check_attachments = false → settings.check_message_body = false →
      gate_verdict g_utf8_strdown settings composer = (false, none, []) := by
    intro h1 h2
    simp [gate_verdict, gate_scan, h1, h2]
  cases hv : (gate_verdict g_utf8_strdown settings composer).1 with
  | false =>
      refine ⟨by simp, by simp, by simp, by simp, ?_, rfl, rfl, rfl⟩
      intro h1 h2
      simp [hflags h1 h2]
  | true =>
      obtain ⟨w, hw⟩ := gate_scan_found_item g_utf8_strdown composer _ _ _ _ hv
      have hw' : (gate_verdict g_utf8_strdown settings composer).2.1 = some w := hw
      rw [hw']
      have hnot : ¬ (settings.check_attachments = false ∧
          settings.check_message_body = false) := by
        rintro ⟨h1, h2⟩
        rw [hflags h1 h2] at hv
        simp at hv
      by_cases hr : gtk_dialog_run (dialog_message w) = GTK_RESPONSE_YES
      · refine ⟨by simp [hr], by simp [hr], fun _ => ⟨w, rfl, by simp [hr], by simp [hr]⟩,
          by simp, ?_, rfl, rfl, rfl⟩
        intro h1 h2
        exact absurd ⟨h1, h2⟩ hnot
      · refine ⟨by simp [hr], by simp [hr], fun _ => ⟨w, rfl, by simp [hr], by simp [hr]⟩,
          by simp, ?_, rfl, rfl, rfl⟩
        intro h1 h2
        exact absurd ⟨h1, h2⟩ hnot

/-- C8 (the code departs from the claim): the indicator is set although no forbidden word
was found in an attachment name or in the body.  With the shipped settings, a composition
without attachments whose body is empty has no forbidden word anywhere: the body text is
"", none of the six words occurs in it and the matcher reports nothing on it.  All the
same the gate runs the dialog for the word "confidential", which it found in the test
sentence that `get_message_text_simple` puts in the place of the empty body, and the
answer `GTK_RESPONSE_NO` sets `presend_check_status`. -/
theorem C8_indicator_set_without_forbidden_word :
    (get_message_text (some ⟨none, none, none, none⟩)).1 = some [] ∧
    load_forbidden_words (some default_settings) = some default_words ∧
    (∀ w ∈ default_words,
      ¬ normalized ascii_strdown false w <:+: normalized ascii_strdown false []) ∧
    check_text_for_forbidden_words ascii_strdown
        (get_message_text (some ⟨none, none, none, none⟩)).1
        (load_forbidden_words (some default_settings)) false (some none)
      = (false, some none) ∧
    (get_message_text_simple (some ⟨none, none, none, none⟩)).1
      = some "Test message with confidential information in body".toList ∧
    GTK_RESPONSE_NO ≠ GTK_RESPONSE_YES ∧
    org_gnome_evolution_attachment_checker ascii_strdown (some default_settings)
        (fun _ => GTK_RESPONSE_NO) (some ⟨some ⟨none, none, none, none⟩⟩)
      = ⟨some ("Обнаружено запрещённое слово: \x27confidential\x27\n\n".toList ++
          "Вы уверены, что хотите отправить это письмо?".toList), some 1,
          [Access.raw_message_text, Access.message, Access.text]⟩ := by
  decide

/-- C9 as stated fails for the upper-cased form: the text "straße" contains the word
"straße", and the matcher reports it without regard to case; its upper-cased form is
"STRASSE", whose lower-casing "strasse" does not contain the lower-cased word, so the
matcher reports nothing on it.  (Lower-casing leaves 'ß' as it is.) -/
theorem C9_counterexample_upper_cased_form :
    sharp_s_strup "straße".toList = "STRASSE".toList ∧
    ascii_strdown "straße".toList = "straße".toList ∧
    ascii_strdown "STRASSE".toList = "strasse".toList ∧
    check_text_for_forbidden_words ascii_strdown (some "straße".toList)
        (some ["straße".toList]) false (some none)
      = (true, some (some "straße".toList)) ∧
    check_text_for_forbidden_words ascii_strdown (some (sharp_s_strup "straße".toList))
        (some ["straße".toList]) false (some none)
      = (false, some none) := by
  decide

/-- C9 (amended): without regard to case the result of `check_text_for_forbidden_words`
depends on the text and on the words through their lower-casing only: two texts with the
same lower-casing and two word lists with the same lower-casings give the same found flag
and report the word at the same index.  So a text and its lower-cased form give the same
result when lower-casing the lower-cased form changes nothing, and a text and its
upper-cased form give the same result when lower-casing the upper-cased form gives the
lower-casing of the text, as for ASCII text.  "SECRET plan" is reported whenever "secret"
is in the list, lower-casing mapping these two ASCII strings as it does.  With regard to case the comparison is
exact: "SECRET plan" does not match the word "secret". -/
theorem C9_case_flag (g_utf8_strdown : Str → Str) :
    (∀ (T U : Str) (W V : List Str) (found_word : OutPtr),
      g_utf8_strdown T = g_utf8_strdown U → W.map g_utf8_strdown = V.map g_utf8_strdown →
      (check_text_for_forbidden_words g_utf8_strdown (some T) (some W) false found_word
          = (false, found_word) ∧
        check_text_for_forbidden_words g_utf8_strdown (some U) (some V) false found_word
          = (false, found_word)) ∨
      ∃ (i : Nat) (w v : Str), W[i]? = some w ∧ V[i]? = some v ∧
        check_text_for_forbidden_words g_utf8_strdown (some T) (some W) false found_word
          = (true, found_word.write (some w)) ∧
        check_text_for_forbidden_words g_utf8_strdown (some U) (some V) false found_word
          = (true, found_word.write (some v))) ∧
    (∀ (T : Str) (W : List Str) (found_word : OutPtr),
      g_utf8_strdown (g_utf8_strdown T) = g_utf8_strdown T →
      check_text_for_forbidden_words g_utf8_strdown (some (g_utf8_strdown T)) (some W) false
          found_word
        = check_text_for_forbidden_words g_utf8_strdown (some T) (some W) false found_word) ∧
    (∀ (g_utf8_strup : Str → Str) (T : Str) (W : List Str) (found_word : OutPtr),
      g_utf8_strdown (g_utf8_strup T) = g_utf8_strdown T →
      check_text_for_forbidden_words g_utf8_strdown (some (g_utf8_strup T)) (some W) false
          found_word
        = check_text_for_forbidden_words g_utf8_strdown (some T) (some W) false found_word) ∧
    (∀ (W : List Str) (found_word : OutPtr),
      g_utf8_strdown "SECRET plan".toList = "secret plan".toList →
      g_utf8_strdown "secret".toList = "secret".toList →
      "secret".toList ∈ W →
      (check_text_for_forbidden_words g_utf8_strdown (some "SECRET plan".toList) (some W)
        false found_word).1 = true) ∧
    (∀ found_word : OutPtr,
      check_text_for_forbidden_words g_utf8_strdown (some "SECRET plan".toList)
          (some ["secret".toList]) true found_word
        = (false, found_word)) := by
  refine ⟨?_, ?_, ?_, ?_, ?_⟩
  · intro T U W V found_word hT hW
    rw [check_text_insensitive_eq, check_text_insensitive_eq, ← hT, ← hW]
    rcases search_loop_same_index (g_utf8_strdown T) W V found_word
        (W.map g_utf8_strdown) 0 with h | ⟨k, -, hk, h1, h2⟩
    · exact Or.inl h
    · right
      have hlen : V.length = W.length := by
        have := congrArg List.length hW
        simpa using this.symm
      have hkW : k < W.length := by simpa using hk
      have hkV : k < V.length := by omega
      refine ⟨k, W[k], V[k], List.getElem?_eq_getElem hkW, List.getElem?_eq_getElem hkV, ?_, ?_⟩
      · rw [h1, List.getElem?_eq_getElem hkW]
      · rw [h2, List.getElem?_eq_getElem hkV]
  · intro T W found_word hT
    rw [check_text_insensitive_eq, check_text_insensitive_eq, hT]
  · intro g_utf8_strup T W found_word hT
    rw [check_text_insensitive_eq, check_text_insensitive_eq, hT]
  · intro W found_word h1 h2 hmem
    rw [check_text_found_iff]
    refine ⟨_, hmem, ?_⟩
    simp only [normalized, Bool.false_eq_true, if_false, h1, h2]
    decide
  · intro found_word
    rfl

/-- Witness of C9 with the ASCII lower-casing: "SECRET plan" and "secret PLAN" against the
lists "Secret" and "SECRET", and "SECRET plan" against the shipped word list. -/
theorem C9_case_flag_witness :
    (∃ (i : Nat) (w v : Str), ["Secret".toList][i]? = some w ∧
        ["SECRET".toList][i]? = some v ∧
        check_text_for_forbidden_words ascii_strdown (some "SECRET plan".toList)
            (some ["Secret".toList]) false (some none)
          = (true, some (some w)) ∧
        check_text_for_forbidden_words ascii_strdown (some "secret PLAN".toList)
            (some ["SECRET".toList]) false (some none)
          = (true, some (some v))) ∧
    check_text_for_forbidden_words ascii_strdown (some (ascii_strdown "SECRET plan".toList))
        (some default_words) false (some none)
      = check_text_for_forbidden_words ascii_strdown (some "SECRET plan".toList)
        (some default_words) false (some none) ∧
    check_text_for_forbidden_words ascii_strdown (some (ascii_strup "secret plan".toList))
        (some default_words) false (some none)
      = check_text_for_forbidden_words ascii_strdown (some "secret plan".toList)
        (some default_words) false (some none) ∧
    (check_text_for_forbidden_words ascii_strdown (some "SECRET plan".toList)
      (some default_words) false (some none)).1 = true := by
  refine ⟨?_, (C9_case_flag ascii_strdown).2.1 _ _ _ (by decide),
    (C9_case_flag ascii_strdown).2.2.1 ascii_strup _ _ _ (by decide),
    (C9_case_flag ascii_strdown).2.2.2.1 _ _ (by decide) (by decide) (by decide)⟩
  rcases (C9_case_flag ascii_strdown).1 "SECRET plan".toList "secret PLAN".toList
      ["Secret".toList] ["SECRET".toList] (some none) (by decide) (by decide) with h | h
  · exact absurd h.1 (by decide)
  · exact h

/-- C10: `check_attachment_names` goes through the attachments in collection order and
returns the matcher's result for the first attachment whose basename can be resolved and
matches, whatever attachments follow it; it reports no hit exactly when no resolvable
basename matches, leaving the cell behind `found_name` untouched; and an attachment
whose file reference or basename cannot be resolved does not change the result. -/
theorem C10_first_matching_attachment (g_utf8_strdown : Str → Str)
    (store : List EAttachment) (W : Option (List Str)) (cs : Bool) (found_name : OutPtr) :
    ((∃ (pre : List EAttachment) (a : EAttachment) (post : List EAttachment) (b : Str),
        store = pre ++ a :: post ∧ a.file = some (some b) ∧
        (∀ a' ∈ pre, ∀ b', a'.file = some (some b') →
          (check_text_for_forbidden_words g_utf8_strdown (some b') W cs found_name).1 = false) ∧
        (check_text_for_forbidden_words g_utf8_strdown (some b) W cs found_name).1 = true ∧
        check_attachment_names g_utf8_strdown (some store) W cs found_name
          = check_text_for_forbidden_words g_utf8_strdown (some b) W cs found_name) ∨
      ((∀ a ∈ store, ∀ b, a.file = some (some b) →
          (check_text_for_forbidden_words g_utf8_strdown (some b) W cs found_name).1 = false) ∧
        check_attachment_names g_utf8_strdown (some store) W cs found_name
          = (false, found_name))) ∧
    ((check_attachment_names g_utf8_strdown (some store) W cs found_name).1 = false ↔
      ∀ a ∈ store, ∀ b, a.file = some (some b) →
        (check_text_for_forbidden_words g_utf8_strdown (some b) W cs found_name).1 = false) ∧
    check_attachment_names g_utf8_strdown (some (store.filter resolvable)) W cs found_name
      = check_attachment_names g_utf8_strdown (some store) W cs found_name := by
  have hspec := attachment_loop_spec g_utf8_strdown W cs found_name store
  rw [← check_attachment_names_eq_loop] at hspec
  refine ⟨hspec, ?_, ?_⟩
  · rcases hspec with ⟨pre, a, post, b, hst, hf, -, hb, hres⟩ | ⟨hnone, hres⟩
    · rw [hres, hb]
      simp only [Bool.true_eq_false, false_iff]
      intro hall
      have := hall a (by rw [hst]; simp) b hf
      rw [hb] at this
      exact absurd this (by decide)
    · rw [hres]
      simpa using hnone
  · rw [check_attachment_names_eq_loop, check_attachment_names_eq_loop,
      attachment_loop_filter]

/-! ## The settings editor -/

/-- What `g_strstrip` removes is whitespace at the two ends, and what it leaves neither
starts nor ends with whitespace. -/
theorem g_strstrip_spec (p : Char → Bool) (s : Str) :
    ∃ pre post, s = pre ++ g_strstrip p s ++ post ∧
      (∀ c ∈ pre, p c = true) ∧ (∀ c ∈ post, p c = true) ∧
      (∀ c, (g_strstrip p s).head? = some c → p c = false) ∧
      (∀ c, (g_strstrip p s).getLast? = some c → p c = false) := by
  have hsplit : ∀ t : Str, t.rdropWhile p ++ t.rtakeWhile p = t := by
    intro t
    rw [List.rdropWhile, List.rtakeWhile, ← List.reverse_append,
      List.takeWhile_append_dropWhile, List.reverse_reverse]
  refine ⟨s.takeWhile p, (s.dropWhile p).rtakeWhile p, ?_, ?_, ?_, ?_, ?_⟩
  · simp only [g_strstrip, g_strchomp, g_strchug]
    rw [List.append_assoc, hsplit, List.takeWhile_append_dropWhile]
  · intro c hc
    exact List.mem_takeWhile_imp hc
  · intro c hc
    exact List.mem_rtakeWhile_imp hc
  · intro c hc
    simp only [g_strstrip, g_strchomp, g_strchug] at hc
    have hpre : (s.dropWhile p).rdropWhile p <+: s.dropWhile p := List.rdropWhile_prefix p _
    have hhead : (s.dropWhile p).head? = some c := by
      cases h : (s.dropWhile p).rdropWhile p with
      | nil => rw [h] at hc; simp at hc
      | cons d t =>
          rw [h] at hc hpre
          simp at hc
          subst hc
          obtain ⟨u, hu⟩ := hpre
          rw [← hu]
          rfl
    have hnot := List.head?_dropWhile_not p s
    rw [hhead] at hnot
    simpa using hnot
  · intro c hc
    simp only [g_strstrip, g_strchomp, g_strchug] at hc
    have hne : (s.dropWhile p).rdropWhile p ≠ [] := by
      intro h
      rw [h] at hc
      simp at hc
    have hlast := List.rdropWhile_last_not p (s.dropWhile p) hne
    rw [List.getLast?_eq_getLast _ hne] at hc
    simp only [Option.some.injEq] at hc
    rw [hc] at hlast
    simpa using hlast

/-- Trimming a trimmed string changes nothing. -/
theorem g_strstrip_idem (p : Char → Bool) (s : Str) :
    g_strstrip p (g_strstrip p s) = g_strstrip p s := by
  obtain ⟨pre, post, -, -, -, hhead, -⟩ := g_strstrip_spec p s
  have hchug : g_strchug p (g_strstrip p s) = g_strstrip p s := by
    cases h : g_strstrip p s with
    | nil => rfl
    | cons c t =>
        have hc := hhead c (by rw [h]; rfl)
        simp [g_strchug, List.dropWhile, hc]
  have hchomp : g_strchomp p (g_strstrip p s) = g_strstrip p s := by
    simp only [g_strstrip, g_strchomp]
    exact List.rdropWhile_idempotent p _
  calc g_strstrip p (g_strstrip p s)
      = g_strchomp p (g_strchug p (g_strstrip p s)) := rfl
    _ = g_strchomp p (g_strstrip p s) := by rw [hchug]
    _ = g_strstrip p s := hchomp

/-- The rows loop appends the trimmed, non-empty subset of the non-`NULL` keywords. -/
theorem commit_loop_eq (p : Char → Bool) (rows : List (Option Str)) (words_array : List Str) :
    commit_loop p rows words_array =
      words_array ++ trimmed_nonempty p (rows.filterMap id) := by
  induction rows generalizing words_array with
  | nil => simp [commit_loop, trimmed_nonempty]
  | cons r rows ih =>
      cases r with
      | none => simpa [commit_loop, trimmed_nonempty] using ih words_array
      | some keyword =>
          by_cases h : g_strstrip p keyword = []
          · simp only [commit_loop, h, List.length_nil, gt_iff_lt, lt_self_iff_false, if_false,
              ih]
            simp [trimmed_nonempty, h]
          · have hlen : (g_strstrip p keyword).length > 0 := List.length_pos.mpr h
            simp only [commit_loop, hlen, if_true, ih, g_strstrip_idem]
            simp [trimmed_nonempty, h]

/-! ## Text leaves of a content tree -/

/-- A decoded content is never the empty string. -/
theorem data_wrapper_ne_nil (content : Option CamelDataWrapper) :
    extract_text_from_camel_data_wrapper content ≠ some [] := by
  cases content with
  | none => simp [extract_text_from_camel_data_wrapper]
  | some dw =>
      simp only [extract_text_from_camel_data_wrapper]
      split
      · split
        · next h =>
            intro he
            injection he with he
            rw [he] at h
            simp at h
        · simp
      · simp

theorem text_content_eq (content : Option CamelDataWrapper) :
    text_content content = (extract_text_from_camel_data_wrapper content).getD [] := by
  cases content with
  | none => rfl
  | some dw =>
      simp only [text_content]
      split <;> simp [*]

/-- A part of a `text/` type extracts to its decoded content. -/
theorem extract_text_part_eq (mime : Str) (content : Option CamelDataWrapper)
    (multipart : Option (List (Option CamelMimePart)))
    (h : g_str_has_prefix mime "text/".toList = true) :
    extract_text_from_part (.mk (some mime) content multipart)
      = extract_text_from_camel_data_wrapper content := by
  unfold extract_text_from_part
  simp only [Option.isSome_some, Option.getD_some, h, and_self, if_true, text_content_eq]
  cases hc : extract_text_from_camel_data_wrapper content with
  | none => simp
  | some P =>
      have hne : P ≠ [] := by
        rintro rfl
        exact data_wrapper_ne_nil content hc
      simp [hne]

/-- A multipart of a `multipart/` type extracts to the extractions of its sub-parts, each
followed by a newline. -/
theorem extract_multipart_eq (mime : Str) (content : Option CamelDataWrapper)
    (parts : List (Option CamelMimePart))
    (h : g_str_has_prefix mime "multipart/".toList = true) :
    extract_text_from_part (.mk (some mime) content (some parts))
      = (if ((parts.filterMap extract_text_from_camel_part).map (· ++ ['\n'])).flatten = []
          then none
          else some ((parts.filterMap extract_text_from_camel_part).map (· ++ ['\n'])).flatten) := by
  have ht := multipart_not_text mime h
  unfold extract_text_from_part
  simp only [Option.isSome_some, Option.getD_some, ht, h, subparts_loop_eq, List.nil_append,
    List.length_eq_zero]
  simp

theorem Interleaved.nil_inv {E : Str} (h : Interleaved [] E) : E = [] := by
  cases h
  rfl

theorem Interleaved.append {Ps Qs : List Str} {E F : Str} (h : Interleaved Ps E)
    (k : Interleaved Qs F) : Interleaved (Ps ++ Qs) (E ++ F) := by
  induction h with
  | nil => simpa using k
  | cons P s Ps E hs _ ih =>
      have := Interleaved.cons P s (Ps ++ Qs) (E ++ F) hs ih
      simpa [List.append_assoc] using this

theorem Interleaved.snoc_newline {Ps : List Str} {E : Str} (h : Interleaved Ps E)
    (hne : Ps ≠ []) : Interleaved Ps (E ++ ['\n']) := by
  induction h with
  | nil => exact absurd rfl hne
  | cons P s Ps E hs hrest ih =>
      cases Ps with
      | nil =>
          have hE := hrest.nil_inv
          subst hE
          have hs' : ∀ c ∈ s ++ ['\n'], c = '\n' := by
            intro c hc
            rcases List.mem_append.mp hc with h1 | h1
            · exact hs c h1
            · simpa using h1
          have := Interleaved.cons P (s ++ ['\n']) [] [] hs' Interleaved.nil
          simpa [List.append_assoc] using this
      | cons Q Qs =>
          have := Interleaved.cons P s (Q :: Qs) (E ++ ['\n']) hs (ih (by simp))
          simpa [List.append_assoc] using this

theorem Interleaved.mem_infix {Ps : List Str} {E : Str} (h : Interleaved Ps E) (P : Str)
    (hP : P ∈ Ps) : P <:+: E := by
  induction h with
  | nil => simp at hP
  | cons Q s Ps E _ _ ih =>
      rcases List.mem_cons.mp hP with rfl | hmem
      · exact ⟨[], s ++ E, by simp [List.append_assoc]⟩
      · exact (ih hmem).trans ⟨Q ++ s, [], by simp⟩

theorem Interleaved.eq_nil_of_nil {Ps : List Str} (h : Interleaved Ps [])
    (hne : ∀ P ∈ Ps, P ≠ []) : Ps = [] := by
  cases Ps with
  | nil => rfl
  | cons P Ps =>
      exfalso
      have hin := h.mem_infix P (by simp)
      rw [List.infix_nil] at hin
      exact hne P (by simp) hin

theorem Interleaved.singleton (P : Str) : Interleaved [P] P := by
  have := Interleaved.cons P [] [] [] (by simp) Interleaved.nil
  simpa using this

/-- The payloads and the extraction of a part of a `text/` type. -/
theorem leaf_payloads_text (mime : Str) (content : Option CamelDataWrapper)
    (multipart : Option (List (Option CamelMimePart)))
    (h : g_str_has_prefix mime "text/".toList = true) :
    leaf_payloads (.mk (some mime) content multipart) = leaf_payload content := by
  unfold leaf_payloads
  rw [if_pos ⟨rfl, h⟩]

/-- A multipart of a `multipart/` type has the payloads of its sub-parts. -/
theorem leaf_payloads_multipart (mime : Str) (content : Option CamelDataWrapper)
    (parts : List (Option CamelMimePart))
    (h : g_str_has_prefix mime "multipart/".toList = true) :
    leaf_payloads (.mk (some mime) content (some parts)) = leaf_payloads_of parts := by
  have ht := multipart_not_text mime h
  unfold leaf_payloads
  have hnt : ¬ ((some mime).isSome = true ∧
      g_str_has_prefix ((some mime).getD []) "text/".toList = true) := by
    rintro ⟨-, hc⟩
    have hc' : g_str_has_prefix mime "text/".toList = true := hc
    rw [ht] at hc'
    exact absurd hc' (by decide)
  rw [if_neg hnt, if_pos ⟨rfl, h⟩]

/-- A part that is neither of a `text/` type nor a multipart of a `multipart/` type has no
payloads and extracts to `NULL`. -/
theorem leaf_payloads_other (mime_type : Option Str) (content : Option CamelDataWrapper)
    (multipart : Option (List (Option CamelMimePart)))
    (ht : ¬ (mime_type.isSome = true ∧
      g_str_has_prefix (mime_type.getD []) "text/".toList = true))
    (hm : ¬ (mime_type.isSome = true ∧
      g_str_has_prefix (mime_type.getD []) "multipart/".toList = true) ∨ multipart = none) :
    leaf_payloads (.mk mime_type content multipart) = [] ∧
      extract_text_from_part (.mk mime_type content multipart) = none := by
  unfold leaf_payloads extract_text_from_part
  rcases hm with hm | hm
  · simp only [if_neg ht, if_neg hm]
    simp
  · subst hm
    simp only [if_neg ht]
    constructor
    · split <;> rfl
    · split <;> simp

theorem leaf_payload_spec (content : Option CamelDataWrapper) :
    Interleaved (leaf_payload content)
        ((extract_text_from_camel_data_wrapper content).getD []) ∧
      (∀ P ∈ leaf_payload content, extract_text_from_camel_data_wrapper content = some P) := by
  unfold leaf_payload
  cases h : extract_text_from_camel_data_wrapper content with
  | none => exact ⟨Interleaved.nil, by simp⟩
  | some P => exact ⟨Interleaved.singleton P, by simp⟩

mutual
/-- The extraction of a part consists of the payloads of its text leaves, in leaf order,
each followed by newlines; the payloads are not empty and belong to text leaves. -/
theorem leaf_payloads_spec : (part : CamelMimePart) →
    Interleaved (leaf_payloads part) ((extract_text_from_part part).getD []) ∧
      (∀ P ∈ leaf_payloads part, P ≠ []) ∧
      (∀ P ∈ leaf_payloads part, TextLeafOf part P)
  | .mk none content multipart => by
      have h := leaf_payloads_other none content multipart (by simp) (Or.inl (by simp))
      rw [h.1, h.2]
      exact ⟨Interleaved.nil, by simp, by simp⟩
  | .mk (some mime) content none => by
      by_cases ht : g_str_has_prefix mime "text/".toList = true
      · rw [leaf_payloads_text _ _ _ ht, extract_text_part_eq _ _ _ ht]
        refine ⟨(leaf_payload_spec content).1, ?_, ?_⟩
        · intro P hP hnil
          subst hnil
          exact data_wrapper_ne_nil content ((leaf_payload_spec content).2 _ hP)
        · intro P hP
          exact TextLeafOf.leaf mime content none P ht ((leaf_payload_spec content).2 _ hP)
      · have h := leaf_payloads_other (some mime) content none
          (fun hc => ht hc.2) (Or.inr rfl)
        rw [h.1, h.2]
        exact ⟨Interleaved.nil, by simp, by simp⟩
  | .mk (some mime) content (some parts) => by
      by_cases ht : g_str_has_prefix mime "text/".toList = true
      · rw [leaf_payloads_text _ _ _ ht, extract_text_part_eq _ _ _ ht]
        refine ⟨(leaf_payload_spec content).1, ?_, ?_⟩
        · intro P hP hnil
          subst hnil
          exact data_wrapper_ne_nil content ((leaf_payload_spec content).2 _ hP)
        · intro P hP
          exact TextLeafOf.leaf mime content _ P ht ((leaf_payload_spec content).2 _ hP)
      · by_cases hm : g_str_has_prefix mime "multipart/".toList = true
        · have ih := leaf_payloads_of_spec parts
          rw [leaf_payloads_multipart _ _ _ hm, extract_multipart_eq _ _ _ hm]
          refine ⟨?_, ih.2.1, ?_⟩
          · split
            · next h0 =>
                simp only [Option.getD_none]
                rw [← h0]
                exact ih.1
            · exact ih.1
          · intro P hP
            obtain ⟨child, hmem, hleaf⟩ := ih.2.2 P hP
            exact TextLeafOf.node mime content parts child P hm hmem hleaf
        · have h := leaf_payloads_other (some mime) content (some parts)
            (fun hc => ht hc.2) (Or.inl (fun hc => hm hc.2))
          rw [h.1, h.2]
          exact ⟨Interleaved.nil, by simp, by simp⟩
/-- The same for the sub-parts of a multipart. -/
theorem leaf_payloads_of_spec : (parts : List (Option CamelMimePart)) →
    Interleaved (leaf_payloads_of parts)
        ((parts.filterMap extract_text_from_camel_part).map (· ++ ['\n'])).flatten ∧
      (∀ P ∈ leaf_payloads_of parts, P ≠ []) ∧
      (∀ P ∈ leaf_payloads_of parts, ∃ child, some child ∈ parts ∧ TextLeafOf child P)
  | [] => by
      unfold leaf_payloads_of
      exact ⟨by simpa using Interleaved.nil, by simp, by simp⟩
  | none :: rest => by
      have ih := leaf_payloads_of_spec rest
      unfold leaf_payloads_of
      refine ⟨by simpa [extract_text_from_camel_part] using ih.1, ih.2.1, ?_⟩
      intro P hP
      obtain ⟨child, hmem, hleaf⟩ := ih.2.2 P hP
      exact ⟨child, List.mem_cons_of_mem _ hmem, hleaf⟩
  | some part :: rest => by
      have ih := leaf_payloads_of_spec rest
      have ihp := leaf_payloads_spec part
      unfold leaf_payloads_of
      refine ⟨?_, ?_, ?_⟩
      · cases he : extract_text_from_part part with
        | none =>
            rw [he] at ihp
            have hnil : leaf_payloads part = [] := ihp.1.eq_nil_of_nil ihp.2.1
            rw [hnil]
            simpa [extract_text_from_camel_part, he] using ih.1
        | some E =>
            rw [he] at ihp
            have hE : E ≠ [] := by
              rintro rfl
              exact extract_ne_nil (some part) he
            have hne : leaf_payloads part ≠ [] := by
              intro h0
              rw [h0] at ihp
              exact hE ihp.1.nil_inv
            have h1 := (ihp.1.snoc_newline hne).append ih.1
            simpa [extract_text_from_camel_part, he] using h1
      · intro P hP
        rcases List.mem_append.mp hP with h1 | h1
        · exact ihp.2.1 P h1
        · exact ih.2.1 P h1
      · intro P hP
        rcases List.mem_append.mp hP with h1 | h1
        · exact ⟨part, by simp, ihp.2.2 P h1⟩
        · obtain ⟨child, hmem, hleaf⟩ := ih.2.2 P h1
          exact ⟨child, List.mem_cons_of_mem _ hmem, hleaf⟩
end

/-- C11: with the settings store available `load_forbidden_words` returns the six built-in
words "confidential", "secret", "password", "private", "internal", "draft", in this order,
when the stored list is absent or empty, and the stored list itself when it is not empty;
without a settings store it returns `NULL`, and the gate then runs no dialog and leaves
`presend_check_status` unset, whatever the target is. -/
theorem C11_load_defaults_or_stored_list (g_utf8_strdown : Str → Str)
    (gtk_dialog_run : Str → Int) :
    (∀ a b c : Bool, load_forbidden_words (some ⟨none, a, b, c⟩)
      = some ["confidential".toList, "secret".toList, "password".toList,
          "private".toList, "internal".toList, "draft".toList]) ∧
    (∀ a b c : Bool, load_forbidden_words (some ⟨some [], a, b, c⟩)
      = some ["confidential".toList, "secret".toList, "password".toList,
          "private".toList, "internal".toList, "draft".toList]) ∧
    (∀ (w : Str) (W : List Str) (a b c : Bool),
      load_forbidden_words (some ⟨some (w :: W), a, b, c⟩) = some (w :: W)) ∧
    load_forbidden_words none = none ∧
    (∀ target : Option EMEventTargetComposer,
      org_gnome_evolution_attachment_checker g_utf8_strdown none gtk_dialog_run target
        = ⟨none, none, []⟩) := by
  refine ⟨fun a b c => rfl, fun a b c => rfl, fun w W a b c => rfl, rfl, ?_⟩
  intro target
  rcases target with _ | ⟨_ | composer⟩ <;> rfl

/-- C12 as stated fails for `save_forbidden_words` itself: handed the entries " secret "
and "" it stores these two entries, not the single trimmed entry "secret". -/
theorem C12_counterexample_save_does_not_trim :
    (save_forbidden_words (some default_settings) (some [" secret ".toList, []])).map
        (fun st => st.forbidden_words)
      = some (some [" secret ".toList, []]) ∧
    trimmed_nonempty ascii_isspace [" secret ".toList, []] = ["secret".toList] ∧
    (save_forbidden_words (some default_settings) (some [" secret ".toList, []])).map
        (fun st => st.forbidden_words)
      ≠ some (some (trimmed_nonempty ascii_isspace [" secret ".toList, []])) := by
  decide

/-- C12 (amended): `save_forbidden_words` stores the list it is handed as it is, without
trimming or dropping anything, and leaves the flags alone.  The trimming is done by
`commit_changes`: after it the stored list is the list of the keywords of the editor rows,
each without its leading and trailing whitespace, the entries that are empty after that
dropped (as are `NULL` cells), in row order and with duplicates kept; the three flags are
those of the toggle buttons.  Here trimming removes whitespace only, at the two ends only,
and leaves a string that neither starts nor ends with whitespace. -/
theorem C12_commit_changes_stores_trimmed_rows (g_ascii_isspace : Char → Bool) :
    (∀ (settings : GSettings) (L : List Str),
      save_forbidden_words (some settings) (some L)
        = some { settings with forbidden_words := some L }) ∧
    (∀ (settings : GSettings) (rows : List (Option Str)) (a b c : Bool),
      commit_changes g_ascii_isspace (some ⟨some settings, some rows, a, b, c⟩)
        = some ⟨some (trimmed_nonempty g_ascii_isspace (rows.filterMap id)), a, b, c⟩) ∧
    (∀ (settings : GSettings) (L : List Str) (a b c : Bool),
      commit_changes g_ascii_isspace (some ⟨some settings, some (L.map some), a, b, c⟩)
        = some ⟨some (trimmed_nonempty g_ascii_isspace L), a, b, c⟩) ∧
    (∀ s : Str, ∃ pre post, s = pre ++ g_strstrip g_ascii_isspace s ++ post ∧
      (∀ c ∈ pre, g_ascii_isspace c = true) ∧ (∀ c ∈ post, g_ascii_isspace c = true) ∧
      (∀ c, (g_strstrip g_ascii_isspace s).head? = some c → g_ascii_isspace c = false) ∧
      (∀ c, (g_strstrip g_ascii_isspace s).getLast? = some c → g_ascii_isspace c = false)) := by
  have hrows : ∀ (settings : GSettings) (rows : List (Option Str)) (a b c : Bool),
      commit_changes g_ascii_isspace (some ⟨some settings, some rows, a, b, c⟩)
        = some ⟨some (trimmed_nonempty g_ascii_isspace (rows.filterMap id)), a, b, c⟩ := by
    intro settings rows a b c
    simp [commit_changes, commit_loop_eq, save_forbidden_words]
  refine ⟨fun settings L => rfl, hrows, ?_, g_strstrip_spec g_ascii_isspace⟩
  intro settings L a b c
  rw [hrows]
  have hL : (L.map some).filterMap id = L := by
    induction L with
    | nil => rfl
    | cons w L ih => simp
  rw [hL]

/-- Witness of C12 (amended): the editor rows " secret ", "", "draft", "draft" with the
ASCII whitespace are stored as "secret", "draft", "draft". -/
theorem C12_commit_changes_stores_trimmed_rows_witness :
    commit_changes ascii_isspace (some ⟨some default_settings,
        some [some " secret ".toList, some [], some "draft".toList, some "draft\n".toList],
        true, false, true⟩)
      = some ⟨some ["secret".toList, "draft".toList, "draft".toList], true, false, true⟩ :=
  ((C12_commit_changes_stores_trimmed_rows ascii_isspace).2.1 default_settings
    [some " secret ".toList, some [], some "draft".toList, some "draft\n".toList]
    true false true).trans (by decide)

end AttachmentChecker
